import Mathlib

/-!
Shallow embedding of the DistributedSystems file-synchronization service.

Conventions of the embedding:
* machine bytes are `List Nat` values (`Bytes`);
* `datetime` timestamps are integers counting seconds (`Int`), so that
  `(a - b).total_seconds()` becomes plain integer subtraction and the
  5-minute conflict window becomes `|a - b| < 300`;
* SQLAlchemy tables are association lists kept in insertion order, and a
  `db.query(...).first()` is `List.find?`;
* filesystem reads and external libraries (SHA-256, gzip, Fernet) are
  abstract function parameters, since their input/output behaviour is
  outside the program text;
* Python `dict` results are closed inductive types.
-/

namespace DistributedSync

abbrev Bytes := List Nat

/-- `common/models.py`: `FileEventType(str, Enum)` with values
`create`, `modify`, `delete`. -/
inductive FileEventType
  | create
  | modify
  | delete
deriving DecidableEq

/-- `common/models.py`: `FileEvent` pydantic model.  `checksum` and `size`
are `Optional`; `version_vector` is a JSON dict from client id to counter,
kept as an association list. -/
structure FileEvent where
  id : String
  file_path : String
  event_type : FileEventType
  checksum : Option String
  size : Option Nat
  timestamp : Int
  user_id : String
  version_vector : List (String × Int)
deriving DecidableEq

/-- `server/models/file.py`: the `files` table row.  `checksum` and `size`
mirror the values copied from events (`Option`, matching the event fields
they are assigned from); `is_deleted` defaults to `False`. -/
structure FileRec where
  id : String
  path : String
  checksum : Option String
  size : Option Nat
  owner_id : String
  version_vector : List (String × Int)
  modified_at : Int
  is_deleted : Bool
deriving DecidableEq

/-- `server/models/file.py`: the `users` table row (only the primary key
matters to the sync manager). -/
structure UserRec where
  id : String
deriving DecidableEq

namespace Server

/-- State touched by `server/core/sync_manager.py` together with
`server/core/file_manager.py`: the `files` table, and the set of file ids
whose content is present in the `FileManager` storage directory
(`storage_directory / file_id`). -/
structure ServerState where
  files : List FileRec
  stored_ids : List String
deriving DecidableEq

/-- Result dictionaries returned by `SyncManager.process_file_event`. -/
inductive SyncResult
  | deleted (file_id : String)
  | not_found
  | updated (file_id : String)
  | created (file_id : String)
  | conflict_new_version_wins (file_id : String)
  | conflict_existing_version_wins (file_id : String)
      (current_checksum : Option String) (current_modified_at : Int)
deriving DecidableEq

/-- In-place ORM mutation of the row with primary key `fid`. -/
def update_row (files : List FileRec) (fid : String) (g : FileRec → FileRec) :
    List FileRec :=
  files.map fun f => if f.id = fid then g f else f

/-- `FileManager.delete_file`: unlink `storage_directory / file_id` if it
exists (the boolean result is ignored by the caller). -/
def fm_delete_file (stored : List String) (fid : String) : List String :=
  stored.filter fun s => s ≠ fid

/-- `SyncManager._handle_delete` (sync_manager.py lines 33-45). -/
def handle_delete (st : ServerState) (existing : Option FileRec)
    (event : FileEvent) : SyncResult × ServerState :=
  match existing with
  | some f =>
      (SyncResult.deleted f.id,
       { files := update_row st.files f.id
           (fun g => { g with is_deleted := true, modified_at := event.timestamp }),
         stored_ids := fm_delete_file st.stored_ids f.id })
  | none => (SyncResult.not_found, st)

/-- `SyncManager._detect_conflict` (lines 78-85): checksums differ and the
timestamps are within 300 seconds of each other. -/
def detect_conflict (existing : FileRec) (event : FileEvent) : Bool :=
  if existing.checksum ≠ event.checksum then
    decide (|existing.modified_at - event.timestamp| < 300)
  else
    false

/-- `SyncManager._resolve_conflict` (lines 87-112): last-write-wins. -/
def resolve_conflict (st : ServerState) (existing : FileRec)
    (event : FileEvent) : SyncResult × ServerState :=
  if existing.modified_at < event.timestamp then
    let upd : FileRec → FileRec := fun g =>
      { g with
          checksum := event.checksum,
          size := event.size,
          version_vector := event.version_vector,
          modified_at := event.timestamp }
    (SyncResult.conflict_new_version_wins existing.id,
     { st with files := update_row st.files existing.id upd })
  else
    (SyncResult.conflict_existing_version_wins existing.id
       existing.checksum existing.modified_at, st)

/-- `SyncManager._handle_create_or_modify` (lines 47-76).  `new_id` stands
for the uuid4 primary-key default generated for a freshly inserted row. -/
def handle_create_or_modify (st : ServerState) (existing : Option FileRec)
    (event : FileEvent) (user : UserRec) (new_id : String) :
    SyncResult × ServerState :=
  match existing with
  | some f =>
      if detect_conflict f event then
        resolve_conflict st f event
      else
        let upd : FileRec → FileRec := fun g =>
          { g with
              checksum := event.checksum,
              size := event.size,
              version_vector := event.version_vector,
              modified_at := event.timestamp }
        (SyncResult.updated f.id,
         { st with files := update_row st.files f.id upd })
  | none =>
      (SyncResult.created new_id,
       { st with files := st.files ++
           [{ id := new_id,
              path := event.file_path,
              checksum := event.checksum,
              size := event.size,
              owner_id := user.id,
              version_vector := event.version_vector,
              modified_at := event.timestamp,
              is_deleted := false }] })

/-- The `db.query(File).filter(path, owner).first()` lookup opening
`SyncManager.process_file_event`. -/
def find_existing (st : ServerState) (event : FileEvent) (user : UserRec) :
    Option FileRec :=
  st.files.find? fun f => f.path == event.file_path && f.owner_id == user.id

/-- `SyncManager.process_file_event` (lines 20-31). -/
def process_file_event (st : ServerState) (event : FileEvent)
    (user : UserRec) (new_id : String) : SyncResult × ServerState :=
  let existing := find_existing st event user
  match event.event_type with
  | FileEventType.delete => handle_delete st existing event
  | FileEventType.create => handle_create_or_modify st existing event user new_id
  | FileEventType.modify => handle_create_or_modify st existing event user new_id

/-- `SyncManager.get_file_list` (lines 114-131): the non-deleted rows of a
user, in table order (the returned dictionaries project row fields, so the
rows themselves are returned here). -/
def get_file_list (st : ServerState) (user_id : String) : List FileRec :=
  st.files.filter fun f => f.owner_id == user_id && f.is_deleted == false

end Server

namespace Storage

/-- State of `server/storage.py`'s `StorageManager` directories.
`content` maps a full content hash to the blob stored at
`content/{hash[0:2]}/{hash[2:4]}/{hash}` (the full hash is the final path
component, so the path is injective in the hash and the map is keyed by
the hash directly); `chunk_store` maps a chunk hash to the chunk stored at
`chunks/{chunk_hash}`; `temp` maps `(upload_id, chunk_number)` to the
bytes of `temp/{upload_id}/chunk_{n:06d}`.  A file overwrite is modelled
by consing, with lookup taking the first (most recent) entry. -/
structure StorageState where
  content : List (String × Bytes)
  chunk_store : List (String × Bytes)
  temp : List ((String × Nat) × Bytes)
deriving DecidableEq

def lookup_content (st : StorageState) (h : String) : Option Bytes :=
  (st.content.find? fun p => p.1 == h).map (·.2)

def lookup_chunk_store (st : StorageState) (h : String) : Option Bytes :=
  (st.chunk_store.find? fun p => p.1 == h).map (·.2)

def lookup_temp (temp : List ((String × Nat) × Bytes)) (upload_id : String)
    (n : Nat) : Option Bytes :=
  (temp.find? fun p => p.1.1 == upload_id && p.1.2 == n).map (·.2)

/-- `StorageManager.store_file_content` (storage.py lines 50-60): write the
blob only if no file exists at its content path (deduplication). -/
def store_file_content (st : StorageState) (file_data : Bytes)
    (content_hash : String) : StorageState :=
  if (lookup_content st content_hash).isSome then st
  else { st with content := (content_hash, file_data) :: st.content }

/-- `StorageManager.retrieve_file_content` (lines 62-70): `None` when no
file exists at the content path. -/
def retrieve_file_content (st : StorageState) (content_hash : String) :
    Option Bytes :=
  lookup_content st content_hash

/-- `StorageManager.store_file_chunk` (lines 94-111): store the chunk
content-addressed under its SHA-256 if absent, and (always, overwriting)
as `temp/{upload_id}/chunk_{n:06d}`.  `sha` abstracts
`hashlib.sha256(...).hexdigest()`. -/
def store_file_chunk (sha : Bytes → String) (st : StorageState)
    (upload_id : String) (chunk_number : Nat) (chunk_data : Bytes) :
    StorageState :=
  let chunk_hash := sha chunk_data
  let st1 :=
    if (lookup_chunk_store st chunk_hash).isSome then st
    else { st with chunk_store := (chunk_hash, chunk_data) :: st.chunk_store }
  { st1 with temp := ((upload_id, chunk_number), chunk_data) :: st1.temp }

/-- The `for i in range(total_chunks)` loop of
`StorageManager.reconstruct_file_from_chunks`, carrying the accumulated
`reconstructed_data` and raising `FileNotFoundError` at the first missing
chunk. -/
def reconstruct_loop (temp : List ((String × Nat) × Bytes))
    (upload_id : String) : List Nat → Bytes → Except String Bytes
  | [], acc => Except.ok acc
  | i :: rest, acc =>
      match lookup_temp temp upload_id i with
      | some c => reconstruct_loop temp upload_id rest (acc ++ c)
      | none => Except.error s!"Chunk {i} not found for upload {upload_id}"

/-- `StorageManager.reconstruct_file_from_chunks` (lines 113-126). -/
def reconstruct_file_from_chunks (st : StorageState) (upload_id : String)
    (total_chunks : Nat) : Except String Bytes :=
  reconstruct_loop st.temp upload_id (List.range total_chunks) []

/-- Folding `store_file_chunk` over a list of `(chunk_number, bytes)`
pairs in arrival order. -/
def apply_chunk_stores (sha : Bytes → String) (st : StorageState)
    (upload_id : String) (arrivals : List (Nat × Bytes)) : StorageState :=
  arrivals.foldl (fun s p => store_file_chunk sha s upload_id p.1 p.2) st

/-- `shared/utils.py` `CompressionManager.should_compress` (lines 76-92).
`fs` abstracts the filesystem (`open` returning `None` models the
`except` branch), `gz` abstracts `gzip.compress`; the float division
`len(compressed)/len(sample)` is modelled as exact rational division. -/
def should_compress (fs : String → Option Bytes) (gz : Bytes → Bytes)
    (file_path : String) (threshold : ℚ) : Bool :=
  match fs file_path with
  | none => false
  | some data =>
      let sample := data.take 1024
      if sample.length < 100 then false
      else decide (((gz sample).length : ℚ) / ((sample.length : ℚ)) < threshold)

/-- The part of `FileService.upload_file` (storage.py lines 162-223) that
determines the stored bytes and hashes: compression gated on
`should_compress("dummy", 0.9)`, optional encryption, then SHA-256 of the
processed and of the original data, and the content-addressed write.  The
database rows it inserts carry `checksum = original_hash` and a
`FileVersion` with `version_number = 1`. -/
structure UploadOutcome where
  processed : Bytes
  content_hash : String
  original_hash : String
  record_checksum : String
  version_number : Nat
  store_after : StorageState
deriving DecidableEq

def upload_file (sha : Bytes → String) (fs : String → Option Bytes)
    (gz : Bytes → Bytes) (enc : Bytes → String → Bytes × Bytes)
    (st : StorageState) (file_data : Bytes) (encrypt : Bool)
    (password : Option String) : UploadOutcome :=
  let p1 := if should_compress fs gz "dummy" (9 / 10 : ℚ) then gz file_data
            else file_data
  let p2 := if encrypt && password.isSome then
              (enc p1 (password.getD "")).1
            else p1
  let content_hash := sha p2
  let original_hash := sha file_data
  { processed := p2,
    content_hash := content_hash,
    original_hash := original_hash,
    record_checksum := original_hash,
    version_number := 1,
    store_after := store_file_content st p2 content_hash }

end Storage

namespace Client

/-- `shared/models.py` `EventType` as used by `client/file_watcher.py`. -/
inductive EventType
  | create
  | modify
  | delete
deriving DecidableEq

/-- The `.value` string of the `EventType` enum member. -/
def EventType.val : EventType → String
  | EventType.create => "create"
  | EventType.modify => "modify"
  | EventType.delete => "delete"

/-- A row of the `file_state` SQLite table (file_watcher.py lines 29-38);
keyed by `file_path` (the primary key), stored in the association list of
`LocalDB`. -/
structure FileStateRow where
  checksum : String
  file_size : Nat
  modified_time : Int
  sync_status : String
  last_sync_time : Option Int
deriving DecidableEq

/-- A row of the `sync_queue` SQLite table (lines 40-48): `id` is the
AUTOINCREMENT primary key. -/
structure QueueRow where
  id : Nat
  file_path : String
  event_type : String
  timestamp : Int
  status : String
deriving DecidableEq

/-- The client's SQLite database of `LocalFileState`: the two tables plus
the next AUTOINCREMENT id. -/
structure LocalDB where
  file_state : List (String × FileStateRow)
  sync_queue : List QueueRow
  next_queue_id : Nat
deriving DecidableEq

def emptyDB : LocalDB := { file_state := [], sync_queue := [], next_queue_id := 1 }

/-- `LocalFileState.update_file_state` (lines 53-65): `INSERT OR REPLACE`
naming only five columns, so a replaced row's `last_sync_time` becomes
NULL and `sync_status` becomes `'pending'`. -/
def update_file_state (db : LocalDB) (file_path : String) (checksum : String)
    (file_size : Nat) (modified_time : Int) : LocalDB :=
  let row : FileStateRow :=
    { checksum := checksum, file_size := file_size,
      modified_time := modified_time, sync_status := "pending",
      last_sync_time := none }
  { db with file_state :=
      (file_path, row) :: db.file_state.filter fun p => p.1 ≠ file_path }

/-- `LocalFileState.get_file_state` (lines 67-88). -/
def get_file_state (db : LocalDB) (file_path : String) : Option FileStateRow :=
  (db.file_state.find? fun p => p.1 == file_path).map (·.2)

/-- `LocalFileState.add_to_sync_queue` (lines 90-101).  The code inserts
`time.time()`; the clock reading is passed in as `timestamp`. -/
def add_to_sync_queue (db : LocalDB) (file_path : String)
    (event_type : String) (timestamp : Int) : LocalDB :=
  { db with
      sync_queue := db.sync_queue ++
        [{ id := db.next_queue_id, file_path := file_path,
           event_type := event_type, timestamp := timestamp,
           status := "pending" }],
      next_queue_id := db.next_queue_id + 1 }

/-- Stable insertion into a timestamp-sorted list: the new element goes
before the first strictly-later element and after equal ones coming from
earlier rows. -/
def insert_by_ts (x : QueueRow) : List QueueRow → List QueueRow
  | [] => [x]
  | y :: ys =>
      if x.timestamp ≤ y.timestamp then x :: y :: ys
      else y :: insert_by_ts x ys

/-- `ORDER BY timestamp` modelled as a stable sort (for equal keys SQLite
scans the table in rowid order, which is insertion order here). -/
def sort_by_ts : List QueueRow → List QueueRow
  | [] => []
  | x :: xs => insert_by_ts x (sort_by_ts xs)

/-- `LocalFileState.get_pending_sync_events` (lines 103-125):
`SELECT ... WHERE status = 'pending' ORDER BY timestamp`. -/
def get_pending_sync_events (db : LocalDB) : List QueueRow :=
  sort_by_ts (db.sync_queue.filter fun r => r.status == "pending")

/-- `get_pending_sync_events` as a database operation: a SELECT returns
its rows and leaves the database unchanged (it does not consume). -/
def get_pending_op (db : LocalDB) : List QueueRow × LocalDB :=
  (get_pending_sync_events db, db)

/-- `LocalFileState.mark_sync_event_completed` (lines 127-138). -/
def mark_sync_event_completed (db : LocalDB) (event_id : Nat) : LocalDB :=
  { db with sync_queue := db.sync_queue.map fun r =>
      if r.id = event_id then { r with status := "completed" } else r }

/-- One client-queue operation: an enqueue (with the `time.time()` reading
taken at insertion) or a server acknowledgement. -/
inductive QueueOp
  | enq (file_path : String) (event_type : String) (timestamp : Int)
  | ack (id : Nat)
deriving DecidableEq

def apply_queue_op (db : LocalDB) : QueueOp → LocalDB
  | QueueOp.enq p e t => add_to_sync_queue db p e t
  | QueueOp.ack i => mark_sync_event_completed db i

def run_queue_ops (db : LocalDB) : List QueueOp → LocalDB
  | [] => db
  | op :: rest => run_queue_ops (apply_queue_op db op) rest

/-- The clock readings taken by the enqueues of an operation sequence, in
order. -/
def enq_timestamps : List QueueOp → List Int
  | [] => []
  | QueueOp.enq _ _ t :: rest => t :: enq_timestamps rest
  | QueueOp.ack _ :: rest => enq_timestamps rest

/-- Does the character list `p` begin the character list `s`? -/
def seq_starts : List Char → List Char → Bool
  | [], _ => true
  | _ :: _, [] => false
  | a :: ps, b :: ss => a == b && seq_starts ps ss

/-- Python's `p in s` substring check on character lists. -/
def seq_has : List Char → List Char → Bool
  | s, p =>
      match s with
      | [] => seq_starts p []
      | _ :: t => seq_starts p s || seq_has t p

/-- Python's `s.endswith(p)` on character lists. -/
def seq_ends (s p : List Char) : Bool :=
  seq_starts p.reverse s.reverse

/-- The ignore set of `FileWatcherHandler.__init__`. -/
def ignore_patterns : List String :=
  [".tmp", ".swp", "~", ".git", ".DS_Store", "Thumbs.db"]

/-- `FileWatcherHandler.should_ignore_file` (lines 152-166).  A path is
its list of components (`pathlib.Path.parts`); `path.name` is the final
component. -/
def should_ignore_file (parts : List String) : Bool :=
  let name := (parts.getLast?).getD ""
  ignore_patterns.any
      (fun pat => seq_has name.toList pat.toList ||
        seq_ends name.toList pat.toList) ||
    parts.any (fun part =>
      seq_starts ['.'] part.toList && part ≠ "." && part ≠ "..")

/-- The result of `FileWatcherHandler.calculate_file_info` when the stat
and read succeed. -/
structure FileInfo where
  checksum : String
  file_size : Nat
  modified_time : Int
deriving DecidableEq

/-- A callback emission `callback(event_type, relative_path, file_info)`. -/
structure Emitted where
  event_type : EventType
  path : List String
  info : Option FileInfo
deriving DecidableEq

/-- `FileWatcherHandler.process_file_event` (lines 194-236).  `parts` is
the file path (already relative to the sync folder, as a component list),
`file_info` the outcome of `calculate_file_info` (`none` models a failed
stat/read), `inflight` the `_processing_events` guard set, and `now` the
`time.time()` reading taken when enqueueing.  The result is the updated
database together with the callbacks emitted; the transient addition to
`_processing_events` is discarded again in the `finally` block, so the
guard set is unchanged on return. -/
def process_file_event (db : LocalDB)
    (inflight : List (EventType × List String)) (event_type : EventType)
    (parts : List String) (file_info : Option FileInfo) (now : Int) :
    LocalDB × List Emitted :=
  if should_ignore_file parts then (db, [])
  else if (event_type, parts) ∈ inflight then (db, [])
  else
    match event_type with
    | EventType.delete =>
        (add_to_sync_queue db (String.intercalate "/" parts)
           EventType.delete.val now,
         [{ event_type := event_type, path := parts, info := none }])
    | _ =>
        match file_info with
        | none => (db, [])
        | some fi =>
            let rel := String.intercalate "/" parts
            match get_file_state db rel with
            | some cur =>
                if cur.checksum == fi.checksum &&
                    cur.file_size == fi.file_size then
                  (db, [])
                else
                  let db1 := update_file_state db rel fi.checksum
                    fi.file_size fi.modified_time
                  (add_to_sync_queue db1 rel event_type.val now,
                   [{ event_type := event_type, path := parts,
                      info := some fi }])
            | none =>
                let db1 := update_file_state db rel fi.checksum
                  fi.file_size fi.modified_time
                (add_to_sync_queue db1 rel event_type.val now,
                 [{ event_type := event_type, path := parts,
                    info := some fi }])

end Client

namespace Ws

/-- Message sent over a websocket by `server/api/websocket.py`. -/
inductive WsMessage
  | file_event (e : FileEvent)
  | ping
  | pong
deriving DecidableEq

/-- `ConnectionManager` state: `user_connections` is a dict from user id
to socket, kept in insertion order; one socket per user, so sockets are
identified by their user id here. -/
structure ConnState where
  user_connections : List String
deriving DecidableEq

/-- `ConnectionManager.disconnect` (websocket.py lines 21-24); called only
by the endpoint's receive loop when it observes `WebSocketDisconnect`. -/
def disconnect (m : ConnState) (user_id : String) : ConnState :=
  { user_connections := m.user_connections.filter fun u => u ≠ user_id }

/-- The `user_id != exclude_user` test of the broadcast loop (comparing a
string against `Optional[str]`: against `None` it is always unequal). -/
def excluded (exclude_user : Option String) (uid : String) : Bool :=
  match exclude_user with
  | some x => uid == x
  | none => false

/-- The `for user_id, connection in self.user_connections.items()` loop of
`ConnectionManager.broadcast_file_event` (lines 34-42).  `healthy u` tells
whether `connection.send_text` succeeds for user `u`; an exception
propagates out of the loop, so it returns the deliveries made so far and
the raising user, leaving later connections unserved. -/
def broadcast_loop (healthy : String → Bool) (msg : WsMessage)
    (exclude_user : Option String) :
    List String → List (String × WsMessage) × Option String
  | [] => ([], none)
  | uid :: rest =>
      if excluded exclude_user uid then
        broadcast_loop healthy msg exclude_user rest
      else if healthy uid then
        let (ds, err) := broadcast_loop healthy msg exclude_user rest
        ((uid, msg) :: ds, err)
      else
        ([], some uid)

/-- `ConnectionManager.broadcast_file_event`: there is no try/except in
the loop and no unregistration, so the manager state after the call is
the input state unchanged. -/
def broadcast_file_event (m : ConnState) (healthy : String → Bool)
    (event : FileEvent) (exclude_user : Option String) :
    (List (String × WsMessage) × Option String) × ConnState :=
  (broadcast_loop healthy (WsMessage.file_event event) exclude_user
     m.user_connections, m)

end Ws

/-! Concrete fixtures used to evaluate the theorems on closed inputs. -/

namespace Fx

def u1 : UserRec := { id := "u1" }

def f1 : FileRec :=
  { id := "f1", path := "a.txt", checksum := some "h1", size := some 1,
    owner_id := "u1", version_vector := [("c1", 1)], modified_at := 1000,
    is_deleted := false }

def st1 : Server.ServerState := { files := [f1], stored_ids := ["f1"] }

def tomb : FileRec :=
  { id := "f1", path := "a.txt", checksum := some "h1", size := some 1,
    owner_id := "u1", version_vector := [("c1", 1)], modified_at := 1000,
    is_deleted := true }

def stTomb : Server.ServerState := { files := [tomb], stored_ids := [] }

def mkEvent (ty : FileEventType) (cks : Option String) (sz : Option Nat)
    (ts : Int) : FileEvent :=
  { id := "e1", file_path := "a.txt", event_type := ty, checksum := cks,
    size := sz, timestamp := ts, user_id := "u1",
    version_vector := [("c2", 3)] }

end Fx

/-! ### Theorems -/

/-- The updater applied to the existing row by an accepted create/modify
(either an ordinary update or a resolved conflict won by the incoming
event). -/
def overwriteFrom (e : FileEvent) : FileRec → FileRec := fun g =>
  { g with checksum := e.checksum, size := e.size,
           version_vector := e.version_vector, modified_at := e.timestamp }

/-- C1: for a Create/Modify event against an existing record with a
differing content hash, a timestamp gap under 300 s triggers last-write-
wins: a strictly later incoming timestamp overwrites checksum, size and
modified_at (and version_vector) and reports `new_version_wins`; otherwise
the record is unchanged and `existing_version_wins` is reported with the
current checksum and modified_at; a gap of at least 300 s is an ordinary
update with no conflict report. -/
theorem conflict_lww_spec (st : Server.ServerState) (e : FileEvent)
    (u : UserRec) (nid : String) (f : FileRec)
    (hty : e.event_type = FileEventType.create ∨
      e.event_type = FileEventType.modify)
    (hfind : Server.find_existing st e u = some f)
    (hhash : f.checksum ≠ e.checksum) :
    (|f.modified_at - e.timestamp| < 300 →
       (f.modified_at < e.timestamp →
          Server.process_file_event st e u nid =
            (Server.SyncResult.conflict_new_version_wins f.id,
             { st with files := Server.update_row st.files f.id (overwriteFrom e) }))
       ∧ (¬ f.modified_at < e.timestamp →
          Server.process_file_event st e u nid =
            (Server.SyncResult.conflict_existing_version_wins f.id
               f.checksum f.modified_at, st)))
    ∧ (300 ≤ |f.modified_at - e.timestamp| →
       Server.process_file_event st e u nid =
         (Server.SyncResult.updated f.id,
          { st with files := Server.update_row st.files f.id (overwriteFrom e) })) := by
  have hproc : Server.process_file_event st e u nid =
      Server.handle_create_or_modify st (some f) e u nid := by
    rcases hty with h | h <;>
      simp [Server.process_file_event, h, hfind]
  constructor
  · intro hwin
    have hdet : Server.detect_conflict f e = true := by
      simp [Server.detect_conflict, hhash, hwin]
    constructor
    · intro hlt
      rw [hproc]
      simp only [Server.handle_create_or_modify, hdet, if_true,
        Server.resolve_conflict, if_pos hlt]
      rfl
    · intro hge
      rw [hproc]
      simp [Server.handle_create_or_modify, hdet, Server.resolve_conflict,
        hge]
  · intro hfar
    have hdet : Server.detect_conflict f e = false := by
      simp [Server.detect_conflict, hhash]
      omega
    rw [hproc]
    simp only [Server.handle_create_or_modify, hdet, Bool.false_eq_true,
      if_false]
    rfl

/-- C1 witness: the three branches evaluated on a concrete record
(modified_at 1000, hash h1) and events with hash h2 at timestamps 1100,
950 and 2000. -/
theorem conflict_lww_spec_witness :
    (Server.process_file_event Fx.st1
        (Fx.mkEvent FileEventType.modify (some "h2") (some 2) 1100)
        Fx.u1 "n").1 = Server.SyncResult.conflict_new_version_wins "f1"
    ∧ (Server.process_file_event Fx.st1
        (Fx.mkEvent FileEventType.modify (some "h2") (some 2) 950)
        Fx.u1 "n").1 =
        Server.SyncResult.conflict_existing_version_wins "f1" (some "h1") 1000
    ∧ (Server.process_file_event Fx.st1
        (Fx.mkEvent FileEventType.modify (some "h2") (some 2) 2000)
        Fx.u1 "n").1 = Server.SyncResult.updated "f1" := by
  refine ⟨?_, ?_, ?_⟩
  · have h := ((conflict_lww_spec Fx.st1
        (Fx.mkEvent FileEventType.modify (some "h2") (some 2) 1100)
        Fx.u1 "n" Fx.f1 (Or.inr rfl) (by decide) (by decide)).1
        (by decide)).1 (by decide)
    rw [h]
    decide
  · have h := ((conflict_lww_spec Fx.st1
        (Fx.mkEvent FileEventType.modify (some "h2") (some 2) 950)
        Fx.u1 "n" Fx.f1 (Or.inr rfl) (by decide) (by decide)).1
        (by decide)).2 (by decide)
    rw [h]
    decide
  · have h := (conflict_lww_spec Fx.st1
        (Fx.mkEvent FileEventType.modify (some "h2") (some 2) 2000)
        Fx.u1 "n" Fx.f1 (Or.inr rfl) (by decide) (by decide)).2
        (by decide)
    rw [h]
    decide

/-- Shared helper: an event lands in `handle_create_or_modify` with the
record found for its path. -/
theorem process_cm_eq (st : Server.ServerState) (e : FileEvent) (u : UserRec)
    (nid : String)
    (hty : e.event_type = FileEventType.create ∨
      e.event_type = FileEventType.modify) :
    Server.process_file_event st e u nid =
      Server.handle_create_or_modify st (Server.find_existing st e u) e u nid := by
  rcases hty with h | h <;> simp [Server.process_file_event, h]

/-- Shared helper: a delete event lands in `handle_delete`. -/
theorem process_del_eq (st : Server.ServerState) (e : FileEvent) (u : UserRec)
    (nid : String) (hty : e.event_type = FileEventType.delete) :
    Server.process_file_event st e u nid =
      Server.handle_delete st (Server.find_existing st e u) e := by
  simp [Server.process_file_event, hty]

/-- Shared helper: mutating rows with a field-preserving updater leaves
the projection of the table unchanged. -/
theorem map_field_update_row {α : Type} (fld : FileRec → α) (fid : String)
    (g : FileRec → FileRec) (hfld : ∀ a, fld (g a) = fld a) :
    ∀ l : List FileRec, (Server.update_row l fid g).map fld = l.map fld := by
  intro l
  induction l with
  | nil => rfl
  | cons a t ih =>
      by_cases h : a.id = fid <;>
        simp [Server.update_row, h, hfld] <;>
        simpa [Server.update_row] using ih

/-- C2 counterexample: processing a Delete event against an existing
record (version_vector `[("c1", 1)]`) marks it deleted but leaves its
version data identical — no version is bumped by any accepted mutation. -/
theorem delete_no_version_bump_cex :
    ((Server.process_file_event Fx.st1
        (Fx.mkEvent FileEventType.delete none none 1200)
        Fx.u1 "n").2.files.map fun f => (f.is_deleted, f.version_vector)) =
      [(true, [("c1", 1)])]
    ∧ Fx.f1.version_vector = [("c1", 1)]
    ∧ Fx.f1.is_deleted = false := by
  decide

/-- C2 amended: a Delete against an existing record sets `is_deleted` and
`modified_at` but leaves every row's `version_vector` unchanged (nothing
is bumped); an accepted non-conflicting Create/Modify overwrites
`version_vector` with the incoming event's value instead of producing a
strictly larger version number. -/
theorem mutation_version_fields_spec (st : Server.ServerState)
    (e : FileEvent) (u : UserRec) (nid : String) (f : FileRec)
    (hfind : Server.find_existing st e u = some f) :
    (e.event_type = FileEventType.delete →
       Server.process_file_event st e u nid =
         (Server.SyncResult.deleted f.id,
          { files := Server.update_row st.files f.id
              (fun g => { g with is_deleted := true,
                                 modified_at := e.timestamp }),
            stored_ids := Server.fm_delete_file st.stored_ids f.id })
       ∧ ((Server.process_file_event st e u nid).2.files.map
            (·.version_vector)) = st.files.map (·.version_vector))
    ∧ ((e.event_type = FileEventType.create ∨
          e.event_type = FileEventType.modify) →
       Server.detect_conflict f e = false →
       Server.process_file_event st e u nid =
         (Server.SyncResult.updated f.id,
          { st with files := Server.update_row st.files f.id (overwriteFrom e) })) := by
  constructor
  · intro hdel
    have hp : Server.process_file_event st e u nid =
        Server.handle_delete st (some f) e := by
      rw [process_del_eq st e u nid hdel, hfind]
    constructor
    · rw [hp]; rfl
    · rw [hp]
      simp only [Server.handle_delete]
      exact map_field_update_row (·.version_vector) f.id
        (fun g => { g with is_deleted := true, modified_at := e.timestamp })
        (fun a => rfl) st.files
  · intro hty hnoc
    rw [process_cm_eq st e u nid hty, hfind]
    simp only [Server.handle_create_or_modify, hnoc, Bool.false_eq_true,
      if_false]
    rfl

/-- C2 witness: the amended clauses evaluated on a concrete table. -/
theorem mutation_version_fields_spec_witness :
    ((Server.process_file_event Fx.st1
        (Fx.mkEvent FileEventType.delete none none 1200)
        Fx.u1 "n").2.files.map (·.version_vector)) =
      Fx.st1.files.map (·.version_vector)
    ∧ (Server.process_file_event Fx.st1
        (Fx.mkEvent FileEventType.modify (some "h2") (some 2) 2000)
        Fx.u1 "n").1 = Server.SyncResult.updated "f1" := by
  constructor
  · exact ((mutation_version_fields_spec Fx.st1
      (Fx.mkEvent FileEventType.delete none none 1200) Fx.u1 "n" Fx.f1
      (by decide)).1 rfl).2
  · have h := (mutation_version_fields_spec Fx.st1
      (Fx.mkEvent FileEventType.modify (some "h2") (some 2) 2000) Fx.u1 "n"
      Fx.f1 (by decide)).2 (Or.inr rfl) (by decide)
    rw [h]
    decide

/-- C5 counterexample: the record's content is stored under its file id
before the Delete event and is gone afterwards — `_handle_delete` calls
`FileManager.delete_file`, which unlinks the stored file, so the blob set
after the event is not a superset of the one before. -/
theorem delete_removes_blob_cex :
    "f1" ∈ Fx.st1.stored_ids
    ∧ "f1" ∉ (Server.process_file_event Fx.st1
        (Fx.mkEvent FileEventType.delete none none 1200)
        Fx.u1 "n").2.stored_ids := by
  decide

/-- C5 amended: a Delete event against an existing record removes that
record's stored content (by file id) from `FileManager` storage;
Create/Modify events leave the stored-content set unchanged, and a Delete
with no matching record changes nothing. -/
theorem sync_event_storage_effects_spec (st : Server.ServerState)
    (e : FileEvent) (u : UserRec) (nid : String) :
    (∀ f, Server.find_existing st e u = some f →
       e.event_type = FileEventType.delete →
       (Server.process_file_event st e u nid).2.stored_ids =
         Server.fm_delete_file st.stored_ids f.id
       ∧ f.id ∉ (Server.process_file_event st e u nid).2.stored_ids)
    ∧ ((e.event_type = FileEventType.create ∨
          e.event_type = FileEventType.modify) →
       (Server.process_file_event st e u nid).2.stored_ids = st.stored_ids)
    ∧ (Server.find_existing st e u = none →
       e.event_type = FileEventType.delete →
       (Server.process_file_event st e u nid).2 = st) := by
  refine ⟨?_, ?_, ?_⟩
  · intro f hfind hdel
    have hp : Server.process_file_event st e u nid =
        Server.handle_delete st (some f) e := by
      rw [process_del_eq st e u nid hdel, hfind]
    rw [hp]
    refine ⟨rfl, ?_⟩
    simp [Server.handle_delete, Server.fm_delete_file]
  · intro hty
    rw [process_cm_eq st e u nid hty]
    cases hfind : Server.find_existing st e u with
    | none => rfl
    | some f =>
        simp only [Server.handle_create_or_modify]
        by_cases hc : Server.detect_conflict f e
        · simp only [hc, if_true, Server.resolve_conflict]
          by_cases hlt : f.modified_at < e.timestamp <;> simp [hlt]
        · simp [hc]
  · intro hfind hdel
    rw [process_del_eq st e u nid hdel, hfind]
    rfl

/-- C5 witness: the amended clauses on concrete states. -/
theorem sync_event_storage_effects_spec_witness :
    (Server.process_file_event Fx.st1
        (Fx.mkEvent FileEventType.delete none none 1200)
        Fx.u1 "n").2.stored_ids = []
    ∧ (Server.process_file_event Fx.st1
        (Fx.mkEvent FileEventType.modify (some "h2") (some 2) 1100)
        Fx.u1 "n").2.stored_ids = ["f1"] := by
  constructor
  · have h := ((sync_event_storage_effects_spec Fx.st1
      (Fx.mkEvent FileEventType.delete none none 1200) Fx.u1 "n").1 Fx.f1
      (by decide) rfl).1
    rw [h]
    decide
  · have h := (sync_event_storage_effects_spec Fx.st1
      (Fx.mkEvent FileEventType.modify (some "h2") (some 2) 1100) Fx.u1
      "n").2.1 (Or.inr rfl)
    rw [h]
    decide

/-- Shared helper: a row mutation whose updater preserves (or sets)
`is_deleted = true` keeps every tombstoned row tombstoned, position by
position. -/
theorem update_row_keeps_deleted (l : List FileRec) (fid : String)
    (g : FileRec → FileRec)
    (hg : ∀ a, a.is_deleted = true → (g a).is_deleted = true) :
    ∀ i, (l.get? i).map FileRec.is_deleted = some true →
      ((Server.update_row l fid g).get? i).map FileRec.is_deleted =
        some true := by
  intro i h
  cases hx : l.get? i with
  | none => rw [hx] at h; simp at h
  | some a =>
      have ha : a.is_deleted = true := by
        rw [hx] at h; simpa using h
      have hrow : (Server.update_row l fid g).get? i =
          some (if a.id = fid then g a else a) := by
        simp only [Server.update_row, List.get?_eq_getElem?,
          List.getElem?_map]
        rw [← List.get?_eq_getElem?, hx]
        rfl
      rw [hrow]
      by_cases hid : a.id = fid
      · simp [hid, hg a ha]
      · simp [hid, ha]

/-- Shared helper: `handle_create_or_modify` keeps tombstoned rows
tombstoned at every position (its updaters never touch `is_deleted`, and
a freshly created row is appended after the existing rows). -/
theorem hcm_keeps_deleted (st : Server.ServerState) (e : FileEvent)
    (u : UserRec) (nid : String) (ex : Option FileRec) :
    ∀ i, (st.files.get? i).map FileRec.is_deleted = some true →
      ((Server.handle_create_or_modify st ex e u nid).2.files.get? i).map
        FileRec.is_deleted = some true := by
  intro i h
  cases ex with
  | none =>
      have hlt : i < st.files.length := by
        cases hx : st.files.get? i with
        | none => rw [hx] at h; simp at h
        | some a => exact List.get?_eq_some.mp hx |>.1
      simp only [Server.handle_create_or_modify]
      rw [List.get?_append hlt]
      exact h
  | some g =>
      simp only [Server.handle_create_or_modify]
      by_cases hc : Server.detect_conflict g e
      · simp only [hc, if_true, Server.resolve_conflict]
        by_cases hlt : g.modified_at < e.timestamp
        · simp only [if_pos hlt]
          exact update_row_keeps_deleted st.files g.id
            (overwriteFrom e) (fun a ha => ha) i h
        · simp only [if_neg hlt]
          exact h
      · simp only [hc, Bool.false_eq_true, if_false]
        exact update_row_keeps_deleted st.files g.id
          (overwriteFrom e) (fun a ha => ha) i h

/-- Shared helper: `handle_delete` keeps tombstoned rows tombstoned at
every position (its updater sets `is_deleted := true`). -/
theorem hdel_keeps_deleted (st : Server.ServerState) (e : FileEvent)
    (ex : Option FileRec) :
    ∀ i, (st.files.get? i).map FileRec.is_deleted = some true →
      ((Server.handle_delete st ex e).2.files.get? i).map
        FileRec.is_deleted = some true := by
  intro i h
  cases ex with
  | none => exact h
  | some g =>
      simp only [Server.handle_delete]
      exact update_row_keeps_deleted st.files g.id _ (fun a _ => rfl) i h

/-- C9 counterexample: a Modify event (hash h2, timestamp 950) against a
tombstoned record (hash h1, modified_at 1000) hits the conflict branch
and is rejected: the state is unchanged, so the event did not update the
tombstoned record's checksum/size/modified_at as the claim states. -/
theorem tombstone_update_cex :
    (Fx.mkEvent FileEventType.modify (some "h2") (some 2) 950).checksum =
      some "h2"
    ∧ (Server.process_file_event Fx.stTomb
        (Fx.mkEvent FileEventType.modify (some "h2") (some 2) 950)
        Fx.u1 "n").2 = Fx.stTomb
    ∧ Fx.stTomb.files.map (·.checksum) = [some "h1"] := by
  decide

/-- C9 amended: a Create/Modify against a tombstoned record updates its
checksum, size and modified_at only when accepted (no conflict, or a
conflict won by the strictly later incoming timestamp), via an updater
that never touches `is_deleted`; a conflict won by the existing version
leaves the record unchanged (still tombstoned).  In every case no row's
`is_deleted` is reset: tombstoned rows stay tombstoned under any
processed event, and `get_file_list` never returns a deleted row. -/
theorem tombstone_preserved_spec (st : Server.ServerState) (e : FileEvent)
    (u : UserRec) (nid : String) (f : FileRec) :
    (Server.find_existing st e u = some f → f.is_deleted = true →
       (e.event_type = FileEventType.create ∨
         e.event_type = FileEventType.modify) →
       Server.detect_conflict f e = false →
       Server.process_file_event st e u nid =
         (Server.SyncResult.updated f.id,
          { st with files := Server.update_row st.files f.id (overwriteFrom e) })
       ∧ ∀ a, (overwriteFrom e a).is_deleted = a.is_deleted)
    ∧ (Server.find_existing st e u = some f → f.is_deleted = true →
       (e.event_type = FileEventType.create ∨
         e.event_type = FileEventType.modify) →
       Server.detect_conflict f e = true →
       (f.modified_at < e.timestamp →
          Server.process_file_event st e u nid =
            (Server.SyncResult.conflict_new_version_wins f.id,
             { st with files := Server.update_row st.files f.id (overwriteFrom e) }))
       ∧ (¬ f.modified_at < e.timestamp →
          (Server.process_file_event st e u nid).2 = st))
    ∧ (∀ i, (st.files.get? i).map FileRec.is_deleted = some true →
         ((Server.process_file_event st e u nid).2.files.get? i).map
           FileRec.is_deleted = some true)
    ∧ (∀ uid g, g ∈ Server.get_file_list
          (Server.process_file_event st e u nid).2 uid →
        g.is_deleted = false) := by
  refine ⟨?_, ?_, ?_, ?_⟩
  · intro hfind _ hty hnoc
    rw [process_cm_eq st e u nid hty, hfind]
    simp only [Server.handle_create_or_modify, hnoc, Bool.false_eq_true,
      if_false]
    exact ⟨rfl, fun a => rfl⟩
  · intro hfind _ hty hconf
    rw [process_cm_eq st e u nid hty, hfind]
    simp only [Server.handle_create_or_modify, hconf, if_true]
    constructor
    · intro hlt
      simp only [Server.resolve_conflict, if_pos hlt]
      rfl
    · intro hge
      simp only [Server.resolve_conflict, if_neg hge]
  · intro i hdel
    rcases hty : e.event_type with _ | _ | _
    · rw [process_cm_eq st e u nid (Or.inl hty)]
      exact hcm_keeps_deleted st e u nid _ i hdel
    · rw [process_cm_eq st e u nid (Or.inr hty)]
      exact hcm_keeps_deleted st e u nid _ i hdel
    · rw [process_del_eq st e u nid hty]
      exact hdel_keeps_deleted st e _ i hdel
  · intro uid g hg
    have := List.of_mem_filter hg
    simp only [Bool.and_eq_true, beq_iff_eq] at this
    exact this.2

/-- C9 witness: the amended clauses evaluated on a tombstoned record with
a non-conflicting Modify, plus the positional and listing clauses. -/
theorem tombstone_preserved_spec_witness :
    ((Server.process_file_event Fx.stTomb
        (Fx.mkEvent FileEventType.modify (some "h2") (some 2) 2000)
        Fx.u1 "n").2.files.map fun g =>
          (g.is_deleted, g.checksum, g.modified_at)) =
      [(true, some "h2", 2000)]
    ∧ Server.get_file_list (Server.process_file_event Fx.stTomb
        (Fx.mkEvent FileEventType.modify (some "h2") (some 2) 2000)
        Fx.u1 "n").2 "u1" = [] := by
  have h := (tombstone_preserved_spec Fx.stTomb
    (Fx.mkEvent FileEventType.modify (some "h2") (some 2) 2000) Fx.u1 "n"
    Fx.tomb).1 (by decide) (by decide) (Or.inr rfl) (by decide)
  constructor
  · rw [h.1]
    decide
  · rw [h.1]
    decide

/-- C3: under the storage contract (no hash collision: any blob already
stored under `h` has the same bytes), storing `b` at its hash and
retrieving by that hash returns exactly `b`; and storing under a hash
whose blob already exists is a no-op leaving the state (hence the existing
blob's bytes) unchanged. -/
theorem content_roundtrip_dedup_spec (st : Storage.StorageState) (b : Bytes)
    (h : String) :
    ((∀ b0, Storage.retrieve_file_content st h = some b0 → b0 = b) →
       Storage.retrieve_file_content (Storage.store_file_content st b h) h =
         some b)
    ∧ (∀ b0, Storage.retrieve_file_content st h = some b0 →
       Storage.store_file_content st b h = st) := by
  constructor
  · intro hnc
    cases hx : Storage.lookup_content st h with
    | none =>
        simp only [Storage.store_file_content, hx, Option.isSome_none,
          Bool.false_eq_true, if_false]
        simp [Storage.retrieve_file_content, Storage.lookup_content]
    | some b0 =>
        have hb : b0 = b := hnc b0 (by
          simpa [Storage.retrieve_file_content] using hx)
        simp only [Storage.store_file_content, hx, Option.isSome_some,
          if_true]
        rw [Storage.retrieve_file_content, hx, hb]
  · intro b0 hb0
    have hx : (Storage.lookup_content st h).isSome := by
      rw [Storage.retrieve_file_content] at hb0
      rw [hb0]
      rfl
    simp [Storage.store_file_content, hx]

/-- C3 witness: round-trip from an empty store, and the no-op on a store
already holding a blob under the hash. -/
theorem content_roundtrip_dedup_spec_witness :
    Storage.retrieve_file_content
        (Storage.store_file_content ⟨[], [], []⟩ [1, 2, 3] "ab") "ab" =
      some [1, 2, 3]
    ∧ Storage.store_file_content ⟨[("ab", [9])], [], []⟩ [1, 2, 3] "ab" =
      ⟨[("ab", [9])], [], []⟩ := by
  constructor
  · exact (content_roundtrip_dedup_spec ⟨[], [], []⟩ [1, 2, 3] "ab").1
      (fun b0 hb0 => by
        simp [Storage.retrieve_file_content, Storage.lookup_content] at hb0)
  · exact (content_roundtrip_dedup_spec ⟨[("ab", [9])], [], []⟩ [1, 2, 3]
      "ab").2 [9] (by decide)

/-- Shared helper: the temp-directory view after one `store_file_chunk`:
the stored chunk number now maps to the stored bytes, everything else is
unchanged. -/
theorem lookup_temp_store (sha : Bytes → String) (st : Storage.StorageState)
    (uid : String) (k : Nat) (v : Bytes) (n : Nat) :
    Storage.lookup_temp (Storage.store_file_chunk sha st uid k v).temp uid n =
      if k = n then some v else Storage.lookup_temp st.temp uid n := by
  by_cases hs : (Storage.lookup_chunk_store st (sha v)).isSome <;>
    by_cases hk : k = n <;>
      simp [Storage.store_file_chunk, Storage.lookup_temp, hs, hk]

/-- Shared helper: after folding stores over arrivals containing no entry
for chunk `i`, the temp view at `i` is the initial one. -/
theorem lookup_temp_apply_notmem (sha : Bytes → String) (uid : String) :
    ∀ (L : List (Nat × Bytes)) (st0 : Storage.StorageState) (i : Nat),
      (∀ v, (i, v) ∉ L) →
      Storage.lookup_temp (Storage.apply_chunk_stores sha st0 uid L).temp
          uid i = Storage.lookup_temp st0.temp uid i := by
  intro L
  induction L with
  | nil => intro st0 i _; rfl
  | cons p rest ih =>
      intro st0 i hnot
      have hne : p.1 ≠ i := by
        intro hEq
        exact hnot p.2 (by rw [← hEq]; exact List.mem_cons_self _ _)
      have hrest : ∀ v, (i, v) ∉ rest := fun v hv =>
        hnot v (List.mem_cons_of_mem _ hv)
      calc Storage.lookup_temp (Storage.apply_chunk_stores sha
              (Storage.store_file_chunk sha st0 uid p.1 p.2) uid rest).temp
            uid i
          = Storage.lookup_temp
              (Storage.store_file_chunk sha st0 uid p.1 p.2).temp uid i :=
            ih (Storage.store_file_chunk sha st0 uid p.1 p.2) i hrest
        _ = Storage.lookup_temp st0.temp uid i := by
            rw [lookup_temp_store, if_neg hne]

/-- Shared helper: with no duplicate chunk numbers among the arrivals,
the temp view at a stored chunk number is the bytes that arrived for it,
independent of arrival order. -/
theorem lookup_temp_apply_mem (sha : Bytes → String) (uid : String) :
    ∀ (L : List (Nat × Bytes)) (st0 : Storage.StorageState),
      (L.map Prod.fst).Nodup →
      ∀ i v, (i, v) ∈ L →
      Storage.lookup_temp (Storage.apply_chunk_stores sha st0 uid L).temp
          uid i = some v := by
  intro L
  induction L with
  | nil => intro st0 _ i v hv; cases hv
  | cons p rest ih =>
      rcases p with ⟨k, w⟩
      intro st0 hnodup i v hv
      have hnod : k ∉ rest.map Prod.fst ∧ (rest.map Prod.fst).Nodup := by
        rw [List.map_cons] at hnodup
        exact List.nodup_cons.mp hnodup
      rcases List.mem_cons.mp hv with hEq | hmem
      · injection hEq with h1 h2
        subst h1
        subst h2
        have hkeys : ∀ x, (i, x) ∉ rest := by
          intro x hx
          apply hnod.1
          simpa using List.mem_map_of_mem Prod.fst hx
        calc Storage.lookup_temp
              (Storage.apply_chunk_stores sha st0 uid ((i, v) :: rest)).temp
              uid i
            = Storage.lookup_temp (Storage.apply_chunk_stores sha
                (Storage.store_file_chunk sha st0 uid i v) uid rest).temp
                uid i := rfl
          _ = Storage.lookup_temp
                (Storage.store_file_chunk sha st0 uid i v).temp uid i :=
              lookup_temp_apply_notmem sha uid rest _ i hkeys
          _ = some v := by rw [lookup_temp_store, if_pos rfl]
      · exact ih (Storage.store_file_chunk sha st0 uid k w) hnod.2 i v hmem

/-- Shared helper: the reconstruction loop over chunk numbers whose temp
entries are all present concatenates them in number order. -/
theorem reconstruct_loop_ok (temp : List ((String × Nat) × Bytes))
    (uid : String) (c : Nat → Bytes) :
    ∀ (l : List Nat) (acc : Bytes),
      (∀ i ∈ l, Storage.lookup_temp temp uid i = some (c i)) →
      Storage.reconstruct_loop temp uid l acc =
        Except.ok (acc ++ (l.map c).join) := by
  intro l
  induction l with
  | nil => intro acc _; simp [Storage.reconstruct_loop]
  | cons i rest ih =>
      intro acc hall
      have hi := hall i (List.mem_cons_self _ _)
      simp only [Storage.reconstruct_loop, hi]
      rw [ih (acc ++ c i) (fun j hj => hall j (List.mem_cons_of_mem _ hj))]
      simp

/-- Shared helper: the reconstruction loop raises at the first chunk
number whose temp entry is missing. -/
theorem reconstruct_loop_missing (temp : List ((String × Nat) × Bytes))
    (uid : String) :
    ∀ (l : List Nat) (acc : Bytes),
      (∃ i ∈ l, Storage.lookup_temp temp uid i = none) →
      ∃ msg, Storage.reconstruct_loop temp uid l acc = Except.error msg := by
  intro l
  induction l with
  | nil => intro acc h; rcases h with ⟨i, hi, _⟩; cases hi
  | cons k rest ih =>
      intro acc h
      cases hx : Storage.lookup_temp temp uid k with
      | none =>
          refine ⟨s!"Chunk {k} not found for upload {uid}", ?_⟩
          simp only [Storage.reconstruct_loop, hx]
      | some ck =>
          rcases h with ⟨i, hi, hnone⟩
          rcases List.mem_cons.mp hi with hEq | hmem
          · rw [hEq] at hnone; rw [hnone] at hx; cases hx
          · rcases ih (acc ++ ck) ⟨i, hmem, hnone⟩ with ⟨msg, hmsg⟩
            refine ⟨msg, ?_⟩
            simp only [Storage.reconstruct_loop, hx]
            exact hmsg

/-- C4: if chunks `0 … total-1` each arrived exactly once (in any order),
reconstruction yields the concatenation of the chunks in chunk-number
order, for every permutation of the arrival list; if some chunk number
below `total` never arrived in a fresh session, reconstruction fails with
an error. -/
theorem chunk_reconstruction_spec (sha : Bytes → String)
    (st0 : Storage.StorageState) (uid : String) (total : Nat)
    (L : List (Nat × Bytes)) (c : Nat → Bytes)
    (hnodup : (L.map Prod.fst).Nodup)
    (hmem : ∀ i, i < total → (i, c i) ∈ L) :
    (∀ L2, L.Perm L2 →
       Storage.reconstruct_file_from_chunks
           (Storage.apply_chunk_stores sha st0 uid L2) uid total =
         Except.ok (((List.range total).map c).join))
    ∧ (∀ M : List (Nat × Bytes),
         (∀ n, Storage.lookup_temp st0.temp uid n = none) →
         (∃ i, i < total ∧ ∀ v, (i, v) ∉ M) →
         ∃ msg, Storage.reconstruct_file_from_chunks
             (Storage.apply_chunk_stores sha st0 uid M) uid total =
           Except.error msg) := by
  constructor
  · intro L2 hperm
    have hnodup2 : (L2.map Prod.fst).Nodup :=
      ((hperm.map Prod.fst).nodup_iff).mp hnodup
    have hmem2 : ∀ i, i < total → (i, c i) ∈ L2 := fun i hi =>
      hperm.mem_iff.mp (hmem i hi)
    rw [Storage.reconstruct_file_from_chunks]
    rw [reconstruct_loop_ok _ uid c (List.range total) []
      (fun i hi => lookup_temp_apply_mem sha uid L2 st0 hnodup2 i (c i)
        (hmem2 i (List.mem_range.mp hi)))]
    simp
  · intro M hclean hmiss
    rcases hmiss with ⟨i, hit, hnV⟩
    rw [Storage.reconstruct_file_from_chunks]
    apply reconstruct_loop_missing
    refine ⟨i, List.mem_range.mpr hit, ?_⟩
    rw [lookup_temp_apply_notmem sha uid M st0 i hnV]
    exact hclean i

/-- C4 witness: two chunks delivered in order and reversed both
reconstruct to `[1, 2, 3]`; dropping chunk 1 makes reconstruction fail. -/
theorem chunk_reconstruction_spec_witness :
    Storage.reconstruct_file_from_chunks
        (Storage.apply_chunk_stores (fun _ => "h") ⟨[], [], []⟩ "u"
          [(0, [1]), (1, [2, 3])]) "u" 2 = Except.ok [1, 2, 3]
    ∧ Storage.reconstruct_file_from_chunks
        (Storage.apply_chunk_stores (fun _ => "h") ⟨[], [], []⟩ "u"
          [(1, [2, 3]), (0, [1])]) "u" 2 = Except.ok [1, 2, 3]
    ∧ ∃ msg, Storage.reconstruct_file_from_chunks
        (Storage.apply_chunk_stores (fun _ => "h") ⟨[], [], []⟩ "u"
          [(0, [1])]) "u" 2 = Except.error msg := by
  have h := chunk_reconstruction_spec (fun _ => "h") ⟨[], [], []⟩ "u" 2
    [(0, [1]), (1, [2, 3])] (fun i => if i = 0 then [1] else [2, 3])
    (by decide) (by decide)
  refine ⟨?_, ?_, ?_⟩
  · rw [h.1 [(0, [1]), (1, [2, 3])] (List.Perm.refl _)]
    rfl
  · rw [h.1 [(1, [2, 3]), (0, [1])] (by decide)]
    rfl
  · exact h.2 [(0, [1])] (fun n => rfl)
      ⟨1, by decide, fun v hv => by simp at hv⟩

/-- C6: when a create/modify notification computes a checksum and size
both equal to the last recorded state for the path, the handler leaves
the local database untouched (nothing is enqueued) and emits no
callback. -/
theorem noop_suppression_spec (db : Client.LocalDB)
    (inflight : List (Client.EventType × List String))
    (ty : Client.EventType) (parts : List String) (fi : Client.FileInfo)
    (now : Int) (cur : Client.FileStateRow)
    (hty : ty = Client.EventType.create ∨ ty = Client.EventType.modify)
    (hcur : Client.get_file_state db (String.intercalate "/" parts) =
      some cur)
    (hck : cur.checksum = fi.checksum)
    (hsz : cur.file_size = fi.file_size) :
    Client.process_file_event db inflight ty parts (some fi) now =
      (db, []) := by
  unfold Client.process_file_event
  by_cases hign : Client.should_ignore_file parts
  · simp [hign]
  · simp only [hign, Bool.false_eq_true, if_false]
    by_cases hinf : (ty, parts) ∈ inflight
    · simp [hinf]
    · simp only [hinf, if_false]
      rcases hty with h | h <;> subst h <;>
        simp [hcur, hck, hsz]

/-- C6 witness: a modify notification recomputing the recorded checksum
and size on a concrete database enqueues nothing and emits nothing. -/
theorem noop_suppression_spec_witness :
    Client.process_file_event
        ⟨[("a.txt", ⟨"c", 5, 10, "pending", none⟩)], [], 1⟩ []
        Client.EventType.modify ["a.txt"] (some ⟨"c", 5, 10⟩) 99 =
      (⟨[("a.txt", ⟨"c", 5, 10, "pending", none⟩)], [], 1⟩, []) :=
  noop_suppression_spec
    ⟨[("a.txt", ⟨"c", 5, 10, "pending", none⟩)], [], 1⟩ []
    Client.EventType.modify ["a.txt"] ⟨"c", 5, 10⟩ 99
    ⟨"c", 5, 10, "pending", none⟩ (Or.inr rfl) (by decide) rfl rfl

/-- C10: with no file named "dummy" on the server (`open` fails, so
`should_compress` returns `False`), an unencrypted upload stores exactly
the uploaded bytes and its content hash is the SHA-256 of the uploaded
bytes. -/
theorem upload_no_compression_spec (sha : Bytes → String)
    (fs : String → Option Bytes) (gz : Bytes → Bytes)
    (enc : Bytes → String → Bytes × Bytes) (st : Storage.StorageState)
    (file_data : Bytes) (password : Option String)
    (hfs : fs "dummy" = none) :
    Storage.should_compress fs gz "dummy" (9 / 10 : ℚ) = false
    ∧ (Storage.upload_file sha fs gz enc st file_data false
        password).processed = file_data
    ∧ (Storage.upload_file sha fs gz enc st file_data false
        password).content_hash = sha file_data
    ∧ (Storage.upload_file sha fs gz enc st file_data false
        password).store_after =
      Storage.store_file_content st file_data (sha file_data) := by
  have hsc : Storage.should_compress fs gz "dummy" (9 / 10 : ℚ) = false := by
    simp [Storage.should_compress, hfs]
  refine ⟨hsc, ?_, ?_, ?_⟩ <;> simp [Storage.upload_file, hsc]

/-- C10 witness: a concrete unencrypted upload on a filesystem with no
"dummy" file. -/
theorem upload_no_compression_spec_witness :
    (Storage.upload_file (fun _ => "H") (fun _ => none) id
        (fun b _ => (b, [])) ⟨[], [], []⟩ [1, 2] false none).processed =
      [1, 2]
    ∧ (Storage.upload_file (fun _ => "H") (fun _ => none) id
        (fun b _ => (b, [])) ⟨[], [], []⟩ [1, 2] false none).content_hash =
      "H" := by
  have h := upload_no_compression_spec (fun _ => "H") (fun _ => none) id
    (fun b _ => (b, [])) ⟨[], [], []⟩ [1, 2] none rfl
  exact ⟨h.2.1, h.2.2.1⟩

/-- Shared helper: the stable sort is the identity on a list whose
timestamps are already pairwise non-decreasing. -/
theorem sort_by_ts_sorted (l : List Client.QueueRow)
    (h : List.Pairwise (fun a b : Client.QueueRow =>
      a.timestamp ≤ b.timestamp) l) :
    Client.sort_by_ts l = l := by
  induction l with
  | nil => rfl
  | cons x xs ih =>
      have h1 := (List.pairwise_cons.mp h).1
      have h2 := (List.pairwise_cons.mp h).2
      rw [Client.sort_by_ts, ih h2]
      cases xs with
      | nil => rfl
      | cons y ys =>
          rw [Client.insert_by_ts, if_pos (h1 y (List.mem_cons_self _ _))]

/-- Shared helper: acknowledging changes only row statuses, so any
row projection other than the status is untouched. -/
theorem mark_completed_map_field {α : Type} (fld : Client.QueueRow → α)
    (hfld : ∀ r : Client.QueueRow,
      fld { r with status := "completed" } = fld r)
    (db : Client.LocalDB) (i : Nat) :
    (Client.mark_sync_event_completed db i).sync_queue.map fld =
      db.sync_queue.map fld := by
  simp only [Client.mark_sync_event_completed, List.map_map]
  apply List.map_congr_left
  intro a _
  show fld (if a.id = i then { a with status := "completed" } else a) =
    fld a
  by_cases h : a.id = i
  · rw [if_pos h]; exact hfld a
  · rw [if_neg h]

/-- Shared helper: running operations from a queue with non-decreasing
timestamps, fed by a clock that never goes below the queued timestamps,
keeps the queued timestamps pairwise non-decreasing. -/
theorem run_ops_ts_sorted :
    ∀ (ops : List Client.QueueOp) (db : Client.LocalDB),
      List.Pairwise (· ≤ ·)
        (db.sync_queue.map Client.QueueRow.timestamp) →
      (∀ t1 ∈ db.sync_queue.map Client.QueueRow.timestamp,
        ∀ t2 ∈ Client.enq_timestamps ops, t1 ≤ t2) →
      List.Pairwise (· ≤ ·) (Client.enq_timestamps ops) →
      List.Pairwise (· ≤ ·)
        ((Client.run_queue_ops db ops).sync_queue.map
          Client.QueueRow.timestamp) := by
  intro ops
  induction ops with
  | nil => intro db h1 _ _; exact h1
  | cons op rest ih =>
      intro db h1 h2 h3
      cases op with
      | enq pth ety tstamp =>
          apply ih
          · simp only [Client.apply_queue_op, Client.add_to_sync_queue,
              List.map_append]
            rw [List.pairwise_append]
            refine ⟨h1, List.pairwise_singleton _ _, ?_⟩
            intro t1 ht1 t2 ht2
            have : t2 = tstamp := by simpa using ht2
            subst this
            refine h2 t1 ht1 t2 ?_
            show t2 ∈ t2 :: Client.enq_timestamps rest
            exact List.mem_cons_self _ _
          · intro t1 ht1 t2 ht2
            simp only [Client.apply_queue_op, Client.add_to_sync_queue,
              List.map_append] at ht1
            rcases List.mem_append.mp ht1 with hold | hnew
            · refine h2 t1 hold t2 ?_
              show t2 ∈ tstamp :: Client.enq_timestamps rest
              exact List.mem_cons_of_mem _ ht2
            · have : t1 = tstamp := by simpa using hnew
              subst this
              exact (List.pairwise_cons.mp h3).1 t2 ht2
          · exact (List.pairwise_cons.mp h3).2
      | ack i =>
          apply ih
          · rw [Client.apply_queue_op,
              mark_completed_map_field Client.QueueRow.timestamp
                (fun r => rfl) db i]
            exact h1
          · intro t1 ht1 t2 ht2
            rw [Client.apply_queue_op,
              mark_completed_map_field Client.QueueRow.timestamp
                (fun r => rfl) db i] at ht1
            exact h2 t1 ht1 t2 ht2
          · exact h3

/-- Shared helper: queued row ids stay pairwise increasing and below the
next AUTOINCREMENT id under any operation sequence. -/
theorem run_ops_ids :
    ∀ (ops : List Client.QueueOp) (db : Client.LocalDB),
      List.Pairwise (· < ·) (db.sync_queue.map Client.QueueRow.id) →
      (∀ n ∈ db.sync_queue.map Client.QueueRow.id, n < db.next_queue_id) →
      List.Pairwise (· < ·)
        ((Client.run_queue_ops db ops).sync_queue.map
          Client.QueueRow.id) := by
  intro ops
  induction ops with
  | nil => intro db h1 _; exact h1
  | cons op rest ih =>
      intro db h1 h2
      cases op with
      | enq pth ety tstamp =>
          apply ih
          · simp only [Client.apply_queue_op, Client.add_to_sync_queue,
              List.map_append]
            rw [List.pairwise_append]
            refine ⟨h1, List.pairwise_singleton _ _, ?_⟩
            intro n hn m hm
            have : m = db.next_queue_id := by simpa using hm
            subst this
            exact h2 n hn
          · intro n hn
            simp only [Client.apply_queue_op, Client.add_to_sync_queue,
              List.map_append] at hn ⊢
            rcases List.mem_append.mp hn with hold | hnew
            · exact Nat.lt_succ_of_lt (h2 n hold)
            · have : n = db.next_queue_id := by simpa using hnew
              subst this
              exact Nat.lt_succ_self _
      | ack i =>
          apply ih
          · rw [Client.apply_queue_op,
              mark_completed_map_field Client.QueueRow.id (fun r => rfl)
                db i]
            exact h1
          · intro n hn
            rw [Client.apply_queue_op,
              mark_completed_map_field Client.QueueRow.id (fun r => rfl)
                db i] at hn
            exact h2 n hn

/-- C7: for any sequence of enqueue and acknowledge operations whose
enqueue clock readings are non-decreasing, `get_pending_sync_events`
returns exactly the rows whose status is still pending, in queue
(insertion) order — the queue itself has strictly increasing ids — and
the call is a pure SELECT: it returns the same rows on every call and
does not change the database. -/
theorem pending_queue_spec (ops : List Client.QueueOp)
    (hmono : List.Pairwise (· ≤ ·) (Client.enq_timestamps ops)) :
    Client.get_pending_sync_events (Client.run_queue_ops Client.emptyDB ops) =
      (Client.run_queue_ops Client.emptyDB ops).sync_queue.filter
        (fun r => r.status == "pending")
    ∧ (∀ r, r ∈ Client.get_pending_sync_events
          (Client.run_queue_ops Client.emptyDB ops) ↔
        r ∈ (Client.run_queue_ops Client.emptyDB ops).sync_queue ∧
          r.status = "pending")
    ∧ List.Pairwise (fun a b : Client.QueueRow => a.id < b.id)
        ((Client.run_queue_ops Client.emptyDB ops).sync_queue)
    ∧ Client.get_pending_op (Client.run_queue_ops Client.emptyDB ops) =
        (Client.get_pending_sync_events
          (Client.run_queue_ops Client.emptyDB ops),
         Client.run_queue_ops Client.emptyDB ops) := by
  have hsorted : List.Pairwise (· ≤ ·)
      ((Client.run_queue_ops Client.emptyDB ops).sync_queue.map
        Client.QueueRow.timestamp) :=
    run_ops_ts_sorted ops Client.emptyDB (by simp [Client.emptyDB])
      (by simp [Client.emptyDB]) hmono
  have hrows : List.Pairwise (fun a b : Client.QueueRow =>
      a.timestamp ≤ b.timestamp)
      (Client.run_queue_ops Client.emptyDB ops).sync_queue :=
    List.pairwise_map.mp hsorted
  have hfilter := List.Pairwise.filter
    (R := fun a b : Client.QueueRow => a.timestamp ≤ b.timestamp)
    (fun r => r.status == "pending") hrows
  have hmain : Client.get_pending_sync_events
      (Client.run_queue_ops Client.emptyDB ops) =
      (Client.run_queue_ops Client.emptyDB ops).sync_queue.filter
        (fun r => r.status == "pending") := by
    rw [Client.get_pending_sync_events]
    exact sort_by_ts_sorted _ hfilter
  refine ⟨hmain, ?_, ?_, rfl⟩
  · intro r
    rw [hmain]
    simp [List.mem_filter]
  · exact List.pairwise_map.mp
      (run_ops_ids ops Client.emptyDB (by simp [Client.emptyDB])
        (by simp [Client.emptyDB]))

/-- C7 witness: three enqueues and one acknowledgement; the pending view
is the two unacknowledged rows in insertion order, twice over. -/
theorem pending_queue_spec_witness :
    Client.get_pending_sync_events (Client.run_queue_ops Client.emptyDB
        [Client.QueueOp.enq "a" "create" 10,
         Client.QueueOp.enq "b" "modify" 20,
         Client.QueueOp.ack 1,
         Client.QueueOp.enq "c" "delete" 30]) =
      [⟨2, "b", "modify", 20, "pending"⟩,
       ⟨3, "c", "delete", 30, "pending"⟩] := by
  have h := (pending_queue_spec
    [Client.QueueOp.enq "a" "create" 10,
     Client.QueueOp.enq "b" "modify" 20,
     Client.QueueOp.ack 1,
     Client.QueueOp.enq "c" "delete" 30] (by decide)).1
  rw [h]
  decide

/-- C8 counterexample: with registered clients A, B, C (in that order),
B's channel failing, and A excluded as originator, the broadcast delivers
to nobody — the healthy registered client C is prevented from receiving —
and the failing client B is not unregistered (the manager state is
unchanged). -/
theorem broadcast_failure_cex :
    "C" ∈ (Ws.ConnState.mk ["A", "B", "C"]).user_connections
    ∧ (Ws.broadcast_file_event (Ws.ConnState.mk ["A", "B", "C"])
        (fun u => !(u == "B"))
        (Fx.mkEvent FileEventType.modify (some "h2") (some 2) 1100)
        (some "A")).1 = ([], some "B")
    ∧ (Ws.broadcast_file_event (Ws.ConnState.mk ["A", "B", "C"])
        (fun u => !(u == "B"))
        (Fx.mkEvent FileEventType.modify (some "h2") (some 2) 1100)
        (some "A")).2 = Ws.ConnState.mk ["A", "B", "C"] := by
  decide

/-- Shared helper: when every non-excluded channel's send succeeds, the
loop delivers the message to exactly the non-excluded clients in
registration order. -/
theorem broadcast_loop_all_ok (healthy : String → Bool)
    (msg : Ws.WsMessage) (ex : Option String) :
    ∀ l : List String,
      (∀ u ∈ l, Ws.excluded ex u = false → healthy u = true) →
      Ws.broadcast_loop healthy msg ex l =
        ((l.filter fun u => !Ws.excluded ex u).map fun u => (u, msg),
         none) := by
  intro l
  induction l with
  | nil => intro _; rfl
  | cons u rest ih =>
      intro hall
      have hrest := fun v hv => hall v (List.mem_cons_of_mem _ hv)
      by_cases hx : Ws.excluded ex u
      · simp [Ws.broadcast_loop, hx, ih hrest]
      · have hh : healthy u = true :=
          hall u (List.mem_cons_self _ _) (by simpa using hx)
        simp [Ws.broadcast_loop, hx, hh, ih hrest]

/-- Shared helper: a failing non-excluded channel aborts the loop: only
the healthy non-excluded clients before it receive, the raising user is
reported, and everyone after it receives nothing. -/
theorem broadcast_loop_failure (healthy : String → Bool)
    (msg : Ws.WsMessage) (ex : Option String) :
    ∀ (pre : List String) (b : String) (post : List String),
      (∀ u ∈ pre, Ws.excluded ex u = true ∨ healthy u = true) →
      Ws.excluded ex b = false → healthy b = false →
      Ws.broadcast_loop healthy msg ex (pre ++ b :: post) =
        ((pre.filter fun u => !Ws.excluded ex u).map fun u => (u, msg),
         some b) := by
  intro pre
  induction pre with
  | nil =>
      intro b post _ hxb hb
      simp [Ws.broadcast_loop, hxb, hb]
  | cons u pre' ih =>
      intro b post hall hxb hb
      have hrest := fun v hv => hall v (List.mem_cons_of_mem _ hv)
      by_cases hx : Ws.excluded ex u
      · simp [Ws.broadcast_loop, hx, ih b post hrest hxb hb]
      · have hh : healthy u = true := by
          rcases hall u (List.mem_cons_self _ _) with h | h
          · exact absurd h hx
          · exact h
        simp [Ws.broadcast_loop, hx, hh, ih b post hrest hxb hb]

/-- C8 amended: `broadcast_file_event` sends to every registered client
except the excluded originator in registration order only while sends
succeed: if all non-excluded channels are healthy, every non-excluded
registered client receives the event; a failing channel raises out of the
loop, so clients registered after it receive nothing; and in all cases
the connection registry is left unchanged — the failing channel is not
unregistered by the broadcast. -/
theorem broadcast_delivery_spec (m : Ws.ConnState)
    (healthy : String → Bool) (e : FileEvent) (ex : Option String) :
    ((∀ u ∈ m.user_connections, Ws.excluded ex u = false →
        healthy u = true) →
      (Ws.broadcast_file_event m healthy e ex).1 =
        ((m.user_connections.filter fun u => !Ws.excluded ex u).map
           fun u => (u, Ws.WsMessage.file_event e), none))
    ∧ (Ws.broadcast_file_event m healthy e ex).2 = m
    ∧ (∀ (pre : List String) (b : String) (post : List String),
        m.user_connections = pre ++ b :: post →
        (∀ u ∈ pre, Ws.excluded ex u = true ∨ healthy u = true) →
        Ws.excluded ex b = false → healthy b = false →
        (Ws.broadcast_file_event m healthy e ex).1 =
          ((pre.filter fun u => !Ws.excluded ex u).map
             fun u => (u, Ws.WsMessage.file_event e), some b)) := by
  refine ⟨?_, rfl, ?_⟩
  · intro hall
    exact broadcast_loop_all_ok healthy (Ws.WsMessage.file_event e) ex
      m.user_connections hall
  · intro pre b post hsplit hall hxb hb
    show Ws.broadcast_loop healthy (Ws.WsMessage.file_event e) ex
      m.user_connections = _
    rw [hsplit]
    exact broadcast_loop_failure healthy (Ws.WsMessage.file_event e) ex
      pre b post hall hxb hb

/-- C8 witness: all-healthy delivery to everyone but the originator, and
a failing middle channel aborting after the earlier deliveries. -/
theorem broadcast_delivery_spec_witness :
    (Ws.broadcast_file_event (Ws.ConnState.mk ["A", "B", "C"])
        (fun _ => true)
        (Fx.mkEvent FileEventType.modify (some "h2") (some 2) 1100)
        (some "A")).1 =
      ([("B", Ws.WsMessage.file_event
          (Fx.mkEvent FileEventType.modify (some "h2") (some 2) 1100)),
        ("C", Ws.WsMessage.file_event
          (Fx.mkEvent FileEventType.modify (some "h2") (some 2) 1100))],
       none)
    ∧ (Ws.broadcast_file_event (Ws.ConnState.mk ["A", "B", "C"])
        (fun u => !(u == "B"))
        (Fx.mkEvent FileEventType.modify (some "h2") (some 2) 1100)
        none).1 =
      ([("A", Ws.WsMessage.file_event
          (Fx.mkEvent FileEventType.modify (some "h2") (some 2) 1100))],
       some "B") := by
  constructor
  · have h := (broadcast_delivery_spec (Ws.ConnState.mk ["A", "B", "C"])
      (fun _ => true)
      (Fx.mkEvent FileEventType.modify (some "h2") (some 2) 1100)
      (some "A")).1 (fun u _ _ => rfl)
    rw [h]
    decide
  · have h := (broadcast_delivery_spec (Ws.ConnState.mk ["A", "B", "C"])
      (fun u => !(u == "B"))
      (Fx.mkEvent FileEventType.modify (some "h2") (some 2) 1100)
      none).2.2 ["A"] "B" ["C"] rfl (by decide) (by decide) (by decide)
    rw [h]
    decide

end DistributedSync
